import Mathlib

/-!
# Verification of the quick_browser_1 build pipeline specification

This file embeds, in Lean 4, the build configuration of the
quick_browser_1 repository (`webpack.config.js`) together with the
bundling/emit pipeline described by the repository's design document,
and proves the spec's claims about them.

The only executable configuration in the repository is
`webpack.config.js`; it is embedded literally below (rule test
patterns, loader lists, exclusion pattern, mode, entry, output path,
resolve extensions).  The bundler engine itself (resolver, transform
cache, emitter, HTML-shell injection) is an external package, so those
parts are modelled from the design document, and each such definition
says so in its doc comment.
-/

namespace QuickBrowser

/-! ## List-of-characters string utilities

All string predicates are computed over `String.data` so that every
definition reduces by plain structural recursion.
-/

/-- Test whether `pat` is an initial segment of `s`. -/
def listStartsWith {α : Type} [BEq α] : List α → List α → Bool
  | [], _ => true
  | _ :: _, [] => false
  | p :: ps, c :: cs => p == c && listStartsWith ps cs

/-- Test whether `pat` occurs contiguously inside `s`. -/
def listHasSeg {α : Type} [BEq α] (pat : List α) : List α → Bool
  | [] => listStartsWith pat []
  | c :: cs => listStartsWith pat (c :: cs) || listHasSeg pat cs

/-- Test whether the string `s` ends with `suf`. -/
def strHasSuffix (s suf : String) : Bool :=
  listStartsWith suf.data.reverse s.data.reverse

/-- Test whether `pat` occurs inside the string `s`. -/
def strContains (s pat : String) : Bool :=
  listHasSeg pat.data s.data

/-- Lower-case a string character by character (regex `i` flag). -/
def lowerStr (s : String) : String :=
  ⟨s.data.map Char.toLower⟩

/-- The directory part of a path: everything before the last slash. -/
def dirname (p : String) : String :=
  ⟨(((p.data.reverse).dropWhile (fun c => c ≠ '/')).drop 1).reverse⟩

/-! ## The webpack configuration (`src/webpack.config.js`), embedded

Each regular expression of the config is translated to the Boolean
predicate it denotes on file names:

* rule 1: test `/\.ts?$/` (a literal dot, a `t`, an optional `s`,
  end of string; case sensitive), use `ts-loader`,
  exclude `/node_modules/`;
* rule 2: test `/\.css$/i`, use `["style-loader", "css-loader"]`;
* rule 3: test `/\.s[ac]ss$/i`,
  use `["style-loader", "css-loader", "sass-loader"]`.
-/

/-- Denotation of `/\.ts?$/` : the name ends in `.ts` or in `.t`. -/
def tsTest (p : String) : Bool :=
  strHasSuffix p ".ts" || strHasSuffix p ".t"

/-- Denotation of `/\.css$/i` : the lower-cased name ends in `.css`. -/
def cssTest (p : String) : Bool :=
  strHasSuffix (lowerStr p) ".css"

/-- Denotation of `/\.s[ac]ss$/i` : the lower-cased name ends in
`.sass` or `.scss`. -/
def sassTest (p : String) : Bool :=
  strHasSuffix (lowerStr p) ".sass" || strHasSuffix (lowerStr p) ".scss"

/-- Denotation of the exclusion regex `/node_modules/` : the path
contains `node_modules` as a substring. -/
def underNodeModules (p : String) : Bool :=
  strContains p "node_modules"

/-- One `module.rules` entry of `webpack.config.js`: a test predicate,
the loader list exactly as written in the config (webpack applies it
right to left), and an exclusion predicate (constantly false when the
config gives no `exclude`). -/
structure WebpackRule where
  testRe : String → Bool
  use : List String
  excludeRe : String → Bool

/-- Rule 1 of `webpack.config.js`: `{ test: /\.ts?$/, use: "ts-loader",
exclude: /node_modules/ }`. -/
def tsRule : WebpackRule :=
  { testRe := tsTest, use := ["ts-loader"], excludeRe := underNodeModules }

/-- Rule 2 of `webpack.config.js`:
`{ test: /\.css$/i, use: ["style-loader", "css-loader"] }`. -/
def cssRule : WebpackRule :=
  { testRe := cssTest, use := ["style-loader", "css-loader"],
    excludeRe := fun _ => false }

/-- Rule 3 of `webpack.config.js`:
`{ test: /\.s[ac]ss$/i, use: ["style-loader", "css-loader", "sass-loader"] }`. -/
def scssRule : WebpackRule :=
  { testRe := sassTest, use := ["style-loader", "css-loader", "sass-loader"],
    excludeRe := fun _ => false }

/-- The `module.rules` array of `webpack.config.js`, in order. -/
def webpackRules : List WebpackRule := [tsRule, cssRule, scssRule]

/-- The build mode. `webpack.config.js` hard-codes `"development"`. -/
inductive Mode
  | development
  | production
deriving DecidableEq, Repr

/-- The full shape of `module.exports` in `webpack.config.js`. -/
structure WebpackConfig where
  mode : Mode
  entry : String
  outputPath : String
  htmlTemplate : String
  rules : List WebpackRule
  resolveExtensions : List String

/-- The object `module.exports` of `webpack.config.js` with the mode
left as a parameter (the rules, entry, output and resolve sections of
the config do not mention the mode, so they are the same for every
mode). -/
def webpackConfigWith (m : Mode) : WebpackConfig :=
  { mode := m
    entry := "./src/index.ts"
    outputPath := "build"
    htmlTemplate := "./public/index.html"
    rules := webpackRules
    resolveExtensions := [".tsx", ".ts", ".js"] }

/-- The object `module.exports` of `webpack.config.js` exactly as
written: `mode: "development"`. -/
def webpackConfig : WebpackConfig := webpackConfigWith .development

/-- A rule applies to a file name when its test matches and its
exclusion does not (webpack rule-matching semantics). -/
def ruleApplies (r : WebpackRule) (p : String) : Bool :=
  r.testRe p && !(r.excludeRe p)

/-- Loaders in the order webpack actually applies them: the reverse of
the `use` array (right-to-left application, as recorded in the
repository's Build-and-Compilation notes). -/
def appliedLoaderOrder (r : WebpackRule) : List String :=
  r.use.reverse

/-- How compiled CSS reaches the page.  `runtimeInject`: the style is
carried inside the script bundle and injected into the DOM at runtime.
`standaloneFile`: the style is written as a separate `.css` asset. -/
inductive CssDelivery
  | runtimeInject
  | standaloneFile
deriving DecidableEq, Repr

/-- Modelled from the spec: classification of the final (left-most)
loader of a style chain.  The repository's Build-and-Compilation notes
state that `style-loader` injects compiled CSS at runtime and that
`MiniCssExtractPlugin.loader` is its production-time replacement that
extracts CSS into standalone files. -/
def cssDeliveryOf : String → Option CssDelivery
  | "style-loader" => some .runtimeInject
  | "MiniCssExtractPlugin.loader" => some .standaloneFile
  | _ => none

/-- The delivery of a style file `p` under configuration `cfg`: the
first rule whose test/exclude matches `p` decides, through the last
loader applied in its chain. -/
def styleDeliveryFor (cfg : WebpackConfig) (p : String) : Option CssDelivery :=
  (cfg.rules.find? (fun r => ruleApplies r p)).bind
    (fun r => (appliedLoaderOrder r).getLast?.bind cssDeliveryOf)

/-! ## Source Resolver

The resolver implementation (webpack's module resolution) is not part
of the repository's sources; only its configuration
(`resolve.extensions` in `webpack.config.js`) is.  The algorithm below
is therefore modelled from the design document, section 4.1.
-/

/-- A filesystem snapshot: the set of file paths that exist. -/
structure FsSnapshot where
  files : List String
deriving DecidableEq, Repr

/-- Test whether a path exists in the snapshot. -/
def fileExists (fs : FsSnapshot) (p : String) : Bool :=
  fs.files.contains p

/-- The configured resolution rules: the extension priority list. -/
structure ResolutionRules where
  extensions : List String
deriving DecidableEq, Repr

/-- The resolution rules of `webpack.config.js`:
`resolve.extensions = [".tsx", ".ts", ".js"]`. -/
def configResolutionRules : ResolutionRules :=
  ⟨webpackConfig.resolveExtensions⟩

/-- The outcome of resolving an import specifier.  `nonBundled` is the
final fallback: a reference that is not bundled. -/
inductive Resolved
  | exactPath (p : String)
  | extCandidate (p : String)
  | dirIndex (p : String)
  | nonBundled (specifier : String)
deriving DecidableEq, Repr

/-- Test whether the string `s` starts with `pre`. -/
def strStartsWith (s pre : String) : Bool :=
  listStartsWith pre.data s.data

/-- Join a relative specifier onto the requesting unit's directory; a
non-relative specifier stands on its own. -/
def baseTarget (requester spec : String) : String :=
  if strStartsWith spec "./" then
    dirname requester ++ "/" ++ (⟨spec.data.drop 2⟩ : String)
  else
    spec

/-- First candidate path of a list that exists in the snapshot. -/
def firstExisting (fs : FsSnapshot) : List String → Option String
  | [] => none
  | c :: cs => if fileExists fs c then some c else firstExisting fs cs

/-- Modelled from the spec: the Source Resolver (design document
section 4.1).  Resolution order: exact path, then extension
candidates in the fixed configured priority list, then directory
index fallback, then a non-bundled reference.  The extension list used
by the build is the one from `webpack.config.js`
(`configResolutionRules`). -/
def resolveSpecifier (rules : ResolutionRules) (fs : FsSnapshot)
    (requester spec : String) : Resolved :=
  let t := baseTarget requester spec
  if fileExists fs t then
    .exactPath t
  else
    match firstExisting fs (rules.extensions.map (fun e => t ++ e)) with
    | some p => .extCandidate p
    | none =>
      match firstExisting fs (rules.extensions.map (fun e => t ++ "/index" ++ e)) with
      | some p => .dirIndex p
      | none => .nonBundled spec

/-! ## Content hashing and output file naming

The emitter (bundler engine) is not part of the repository's sources;
only its output directory configuration is.  The hashing and naming
scheme below is modelled from the design document, sections 4.5 and 6
and the glossary: a content hash is a deterministic digest of the
final output bytes, rendered as eight hexadecimal characters in the
file name `<outputDir>/<logical-name>.<hash8>.<ext>`.
-/

/-- A byte string (each entry is one byte value). -/
abbrev Bytes := List Nat

/-- One step of the rolling digest, kept inside 32 bits. -/
def hashStep (h b : Nat) : Nat :=
  (h * 33 + b) % 4294967296

/-- Modelled from the spec: the content hash, a deterministic digest
of a byte string (glossary: "a deterministic digest of final output
bytes used for cache keys and output file naming"). -/
def hashBytes (bs : Bytes) : Nat :=
  bs.foldl hashStep 5381

/-- The hexadecimal digit character for a value below 16. -/
def hexDigit (n : Nat) : Char :=
  if n < 10 then Char.ofNat (48 + n) else Char.ofNat (87 + n)

/-- Modelled from the spec: the eight-character rendering of a content
hash used inside output file names (`<hash8>` in the filesystem output
layout). -/
def hash8 (bs : Bytes) : String :=
  ⟨(List.range 8).map (fun i => hexDigit (hashBytes bs / 16 ^ (7 - i) % 16))⟩

/-- Modelled from the spec: the target file name of a hashed output
chunk, `<outputDir>/<logical-name>.<hash8>.<ext>`, hashed over the
chunk's final bytes. -/
def chunkFileName (outputDir logicalName : String) (finalBytes : Bytes)
    (ext : String) : String :=
  outputDir ++ "/" ++ logicalName ++ "." ++ hash8 finalBytes ++ "." ++ ext

/-! ## Bundler/Emitter

Modelled from the design document, sections 4.5, 5 and 6: the emitter
walks the transformed units in their fixed graph order (topological,
first-discovery tie break — represented here by the order of the unit
list), concatenates each kind into a chunk, names chunks with
`chunkFileName`, and renders the HTML shell template, substituting the
hashed file references at the fixed placeholder markers.  Transforms
may complete in any order (section 5); the completion order is an
explicit argument so that independence from it can be proved.
-/

/-- The kind of a source unit relevant to chunk assembly. -/
inductive SourceKind
  | script
  | style
deriving DecidableEq, Repr

/-- One resolved, content-addressed input unit of the pipeline. -/
structure SourceUnit where
  id : String
  kind : SourceKind
  content : Bytes
deriving DecidableEq, Repr

/-- One emitted output file: its name and its final bytes. -/
structure Asset where
  fileName : String
  bytes : Bytes
deriving DecidableEq, Repr

/-- One segment of the HTML shell template: literal text, or one of
the two fixed placeholder markers (script reference, style
reference). -/
inductive Segment
  | text (s : String)
  | scriptSlot
  | styleSlot
deriving DecidableEq, Repr

/-- The emitter configuration: mode, output directory, shell
template. -/
structure EmitConfig where
  mode : Mode
  outputDir : String
  shellTemplate : List Segment
deriving DecidableEq, Repr

/-- Look a key up in an association list of transform completions. -/
def assocFind (k : Nat) : List (Nat × Bytes) → Option Bytes
  | [] => none
  | (k', v) :: rest => if k' = k then some v else assocFind k rest

/-- The transform-result table in the order transforms completed:
entry `(i, tf content-of-unit-i)` appears at the position at which
unit `i`'s transform finished. -/
def completionTable (tf : Bytes → Bytes) (units : List SourceUnit)
    (completion : List Nat) : List (Nat × Bytes) :=
  completion.filterMap (fun i => (units.get? i).map (fun u => (i, tf u.content)))

/-- The transformed code of unit `i`, looked up in the completion
table. -/
def codeOf (tf : Bytes → Bytes) (units : List SourceUnit)
    (completion : List Nat) (i : Nat) : Bytes :=
  (assocFind i (completionTable tf units completion)).getD []

/-- The indices of the units of one kind, in graph (list) order. -/
def indicesOfKind (units : List SourceUnit) (k : SourceKind) : List Nat :=
  (List.range units.length).filter
    (fun i => decide ((units.get? i).map SourceUnit.kind = some k))

/-- The concatenated transformed code of all units of one kind, in
graph order (the member order of the chunk). -/
def chunkBytesFor (tf : Bytes → Bytes) (units : List SourceUnit)
    (completion : List Nat) (k : SourceKind) : Bytes :=
  ((indicesOfKind units k).map (codeOf tf units completion)).flatten

/-- The final bytes of the script chunk.  In development mode the
compiled style travels inside the script bundle (runtime injection);
in production mode the script chunk carries only script code. -/
def scriptChunkBytes (tf : Bytes → Bytes) (units : List SourceUnit)
    (completion : List Nat) (m : Mode) : Bytes :=
  match m with
  | .development =>
      chunkBytesFor tf units completion .script ++
        chunkBytesFor tf units completion .style
  | .production => chunkBytesFor tf units completion .script

/-- The final bytes of the extracted style output (production). -/
def styleChunkBytes (tf : Bytes → Bytes) (units : List SourceUnit)
    (completion : List Nat) : Bytes :=
  chunkBytesFor tf units completion .style

/-- The script chunk asset: logical name `app`, extension `js`, hash
over its own final bytes. -/
def scriptAssetOf (tf : Bytes → Bytes) (units : List SourceUnit)
    (completion : List Nat) (cfg : EmitConfig) : Asset :=
  let bs := scriptChunkBytes tf units completion cfg.mode
  ⟨chunkFileName cfg.outputDir "app" bs "js", bs⟩

/-- The extracted style asset: logical name `styles`, extension `css`,
hash over its own final bytes. -/
def styleAssetOf (tf : Bytes → Bytes) (units : List SourceUnit)
    (completion : List Nat) (cfg : EmitConfig) : Asset :=
  let bs := styleChunkBytes tf units completion
  ⟨chunkFileName cfg.outputDir "styles" bs "css", bs⟩

/-- The hashed output assets of one build: the script chunk, plus the
standalone style file in production mode only (in development the
style is inlined in the script chunk and injected at runtime). -/
def buildAssets (tf : Bytes → Bytes) (units : List SourceUnit)
    (completion : List Nat) (cfg : EmitConfig) : List Asset :=
  match cfg.mode with
  | .development => [scriptAssetOf tf units completion cfg]
  | .production =>
      [scriptAssetOf tf units completion cfg,
       styleAssetOf tf units completion cfg]

/-- The style reference injected into the shell: the extracted style
file name in production, nothing in development (the style arrives at
runtime through the script bundle). -/
def styleRefFor (tf : Bytes → Bytes) (units : List SourceUnit)
    (completion : List Nat) (cfg : EmitConfig) : String :=
  match cfg.mode with
  | .development => ""
  | .production => (styleAssetOf tf units completion cfg).fileName

/-- Render the shell template, substituting the given references at
the fixed placeholder markers. -/
def renderShellData (scriptRef styleRef : String) : List Segment → List Char
  | [] => []
  | .text s :: rest => s.data ++ renderShellData scriptRef styleRef rest
  | .scriptSlot :: rest => scriptRef.data ++ renderShellData scriptRef styleRef rest
  | .styleSlot :: rest => styleRef.data ++ renderShellData scriptRef styleRef rest

/-- The result of one build: the HTML shell plus the hashed assets,
tagged with the build revision that produced it. -/
structure Manifest where
  htmlName : String
  html : String
  assets : List Asset
  revision : Nat
deriving DecidableEq, Repr

/-- Modelled from the spec: one complete emit (design document
section 4.5).  Arguments: the transformed source units in graph
order, the per-kind transform, the emitter configuration, the build
revision, and the order in which the unit transforms completed. -/
def buildPipeline (units : List SourceUnit) (tf : Bytes → Bytes)
    (cfg : EmitConfig) (rev : Nat) (completion : List Nat) : Manifest :=
  let sAsset := scriptAssetOf tf units completion cfg
  { htmlName := "index.html"
    html := ⟨renderShellData sAsset.fileName
              (styleRefFor tf units completion cfg) cfg.shellTemplate⟩
    assets := buildAssets tf units completion cfg
    revision := rev }

/-! ## Build Cache

Modelled from the design document, sections 3 and 4.4: a
content-addressed store keyed by (source identifier, content hash,
transform options hash), consulted before invoking the transform; a
stored result is valid only while its key's content hash matches the
unit's current content.
-/

/-- A cached transform result: emitted code and declared static
dependency specifiers. -/
structure CachedResult where
  code : Bytes
  deps : List String
deriving DecidableEq, Repr

/-- A cache key: (source identifier, content hash, options hash). -/
abbrev CacheKey := String × Nat × Nat

/-- The Build Cache: an association list from keys to results. -/
abbrev Cache := List (CacheKey × CachedResult)

/-- Cache lookup. -/
def cacheGet : Cache → CacheKey → Option CachedResult
  | [], _ => none
  | (k', v) :: rest, k => if k' = k then some v else cacheGet rest k

/-- Cache insertion. -/
def cachePut (c : Cache) (k : CacheKey) (v : CachedResult) : Cache :=
  (k, v) :: c

/-- The cache key of a unit at a given options hash. -/
def keyOf (u : SourceUnit) (optsHash : Nat) : CacheKey :=
  (u.id, hashBytes u.content, optsHash)

/-- Transform one unit through the cache: serve a hit, or compute the
transform and store the result. -/
def transformCached (tf : Bytes → CachedResult) (optsHash : Nat)
    (c : Cache) (u : SourceUnit) : CachedResult × Cache :=
  match cacheGet c (keyOf u optsHash) with
  | some r => (r, c)
  | none => (tf u.content, cachePut c (keyOf u optsHash) (tf u.content))

/-- Run the whole build's transform phase through the cache,
threading the cache state, and collect every unit's result in unit
order. -/
def buildWithCache (tf : Bytes → CachedResult) (optsHash : Nat) :
    Cache → List SourceUnit → List CachedResult × Cache
  | c, [] => ([], c)
  | c, u :: us =>
      let rc := transformCached tf optsHash c u
      let rest := buildWithCache tf optsHash rc.2 us
      (rc.1 :: rest.1, rest.2)

/-- The transform results a build observes, starting from cache `c`. -/
def cachedOutputs (tf : Bytes → CachedResult) (optsHash : Nat)
    (c : Cache) (units : List SourceUnit) : List CachedResult :=
  (buildWithCache tf optsHash c units).1

/-- The Build Cache validity invariant (design document, section 3):
for each unit of the build, the cache either misses or holds exactly
the transform of that unit's current content. -/
def CoherentFor (tf : Bytes → CachedResult) (optsHash : Nat)
    (units : List SourceUnit) (c : Cache) : Prop :=
  ∀ u ∈ units, cacheGet c (keyOf u optsHash) = none ∨
    cacheGet c (keyOf u optsHash) = some (tf u.content)

/-- Content-addressing soundness for the units of one build: within
the build, the digest identifies the content (no colliding pair of
distinct contents under one identifier). -/
def HashSeparated (units : List SourceUnit) : Prop :=
  ∀ u ∈ units, ∀ v ∈ units,
    u.id = v.id → hashBytes u.content = hashBytes v.content →
      u.content = v.content

/-! ## The entry-point scenario

The entry point configured in `webpack.config.js` is `./src/index.ts`.
The entry module itself, the utility module and the stylesheet are not
under the repository's sources (the repository's documentation
describes them), so the scenario is modelled from the spec's testable
scenario and the repository's Frontend-Application notes: `index.ts`
pulls in `./styles/global.scss` for its side effect, binds the
default export `foo` of `./test`, and calls `foo('hello world')`;
`foo(x)` writes `x` to the console.
-/

/-- A statement of the minimal entry-module language. -/
inductive Stmt
  | importSideEffect (m : String)
  | importDefault (binder : String) (m : String)
  | callBinder (binder : String) (arg : String)
deriving DecidableEq, Repr

/-- An observable runtime event of the scenario. -/
inductive Event
  | fooCall (arg : String)
  | consoleLog (s : String)
  | styleInjected
deriving DecidableEq, Repr

/-- A value a module can export in the scenario. -/
inductive ExportVal
  | fooFn
deriving DecidableEq, Repr

/-- Modelled from the spec: the body of `foo` (the repository's
Frontend-Application notes: `foo(value)` writes `value` to the
runtime console). Invoking it records the invocation and the log. -/
def applyExport : ExportVal → String → List Event
  | .fooFn, arg => [.fooCall arg, .consoleLog arg]

/-- Modelled from the spec: default exports of the scenario's modules.
Only `./test` exports anything (the function `foo`); the stylesheet
module has no code export. -/
def defaultExportOf (m : String) : Option ExportVal :=
  if m = "./test" then some .fooFn else none

/-- Look a binder up in the import environment. -/
def lookupBinder (b : String) : List (String × ExportVal) → Option ExportVal
  | [] => none
  | (b', v) :: rest => if b' = b then some v else lookupBinder b rest

/-- Execute one statement: a side-effect import of the stylesheet
injects the style, a default import binds the exported value, a call
applies the bound value to its argument. -/
def runStmt (env : List (String × ExportVal)) :
    Stmt → List (String × ExportVal) × List Event
  | .importSideEffect _ => (env, [.styleInjected])
  | .importDefault b m =>
      match defaultExportOf m with
      | some v => ((b, v) :: env, [])
      | none => (env, [])
  | .callBinder b arg =>
      match lookupBinder b env with
      | some v => (env, applyExport v arg)
      | none => (env, [])

/-- Execute a statement list, threading the import environment and
concatenating the event trace. -/
def runBody (env : List (String × ExportVal)) : List Stmt → List Event
  | [] => []
  | s :: rest =>
      let r := runStmt env s
      r.2 ++ runBody r.1 rest

/-- Modelled from the spec: the entry module `./src/index.ts` — import
the stylesheet for its side effect, import `foo` from `./test`, call
`foo('hello world')`. -/
def entryModuleBody : List Stmt :=
  [.importSideEffect "./styles/global.scss",
   .importDefault "foo" "./test",
   .callBinder "foo" "hello world"]

/-- The events of executing the script chunk: the entry module runs
with an empty environment. -/
def runEntryChunk : List Event :=
  runBody [] entryModuleBody

/-- Test whether an event is an invocation of `foo`. -/
def isFooCall : Event → Bool
  | .fooCall _ => true
  | _ => false

/-- The scenario's source units in graph order (dependencies before
the entry): the stylesheet, the utility module, the entry module.
The content bytes stand for the transformed code of each unit. -/
def scenarioUnits : List SourceUnit :=
  [⟨"./styles/global.scss", .style, [0x62, 0x6f, 0x64, 0x79]⟩,
   ⟨"./test", .script, [0x66, 0x6f, 0x6f]⟩,
   ⟨"./src/index.ts", .script, [0x6d, 0x61, 0x69, 0x6e]⟩]

/-- The scenario's emit configuration: the mode and output directory
of `webpack.config.js`, and a shell template holding one script
marker and one style marker. -/
def scenarioConfig : EmitConfig :=
  { mode := webpackConfig.mode
    outputDir := webpackConfig.outputPath
    shellTemplate :=
      [.text "<html><head>", .styleSlot,
       .text "</head><body><script src=", .scriptSlot,
       .text "></script></body></html>"] }

/-- The scenario build: identity transform, revision 0, transforms
completed in list order. -/
def scenarioBuild : Manifest :=
  buildPipeline scenarioUnits (fun b => b) scenarioConfig 0 [0, 1, 2]

/-! ## Helper lemmas -/

theorem listStartsWith_self_append {α : Type} [BEq α] [LawfulBEq α]
    (p r : List α) : listStartsWith p (p ++ r) = true := by
  induction p with
  | nil => rfl
  | cons a as ih => simp [listStartsWith, ih]

theorem listHasSeg_self_append {α : Type} [BEq α] [LawfulBEq α]
    (p r : List α) : listHasSeg p (p ++ r) = true := by
  cases p with
  | nil => cases r with
    | nil => rfl
    | cons c cs => simp [listHasSeg, listStartsWith]
  | cons a as =>
    simp [listHasSeg, listStartsWith, listStartsWith_self_append]

theorem listHasSeg_append_right {α : Type} [BEq α] (a : List α)
    {p s : List α} (h : listHasSeg p s = true) :
    listHasSeg p (a ++ s) = true := by
  induction a with
  | nil => simpa using h
  | cons c cs ih =>
    show listHasSeg p (c :: (cs ++ s)) = true
    simp [listHasSeg, ih]

theorem startsWith_get? {α : Type} [BEq α] [LawfulBEq α] :
    ∀ (pat l : List α), listStartsWith pat l = true →
      ∀ i, i < pat.length → l.get? i = pat.get? i := by
  intro pat
  induction pat with
  | nil => intro l _ i hi; simp at hi
  | cons a as ih =>
    intro l h i hi
    cases l with
    | nil => simp [listStartsWith] at h
    | cons c cs =>
      simp only [listStartsWith, Bool.and_eq_true, beq_iff_eq] at h
      cases i with
      | zero => simp [h.1]
      | succ j => simpa using ih cs h.2 j (by simpa using hi)

theorem hash8_length (bs : Bytes) : (hash8 bs).length = 8 := by
  simp [hash8, String.length]

theorem renderShell_hasSeg_script (sRef cRef : String) :
    ∀ segs : List Segment, Segment.scriptSlot ∈ segs →
      listHasSeg sRef.data (renderShellData sRef cRef segs) = true := by
  intro segs h
  induction segs with
  | nil => simp at h
  | cons seg rest ih =>
    cases seg with
    | text s =>
      refine listHasSeg_append_right s.data (ih ?_)
      simpa using h
    | scriptSlot =>
      exact listHasSeg_self_append sRef.data _
    | styleSlot =>
      refine listHasSeg_append_right cRef.data (ih ?_)
      simpa using h

theorem renderShell_hasSeg_style (sRef cRef : String) :
    ∀ segs : List Segment, Segment.styleSlot ∈ segs →
      listHasSeg cRef.data (renderShellData sRef cRef segs) = true := by
  intro segs h
  induction segs with
  | nil => simp at h
  | cons seg rest ih =>
    cases seg with
    | text s =>
      refine listHasSeg_append_right s.data (ih ?_)
      simpa using h
    | scriptSlot =>
      refine listHasSeg_append_right sRef.data (ih ?_)
      simpa using h
    | styleSlot =>
      exact listHasSeg_self_append cRef.data _

theorem firstExisting_map_some (fs : FsSnapshot) (f : String → String) :
    ∀ (l : List String) (p : String),
      firstExisting fs (l.map f) = some p →
      ∃ pre e post, l = pre ++ e :: post ∧ p = f e ∧
        fileExists fs p = true ∧
        ∀ e' ∈ pre, fileExists fs (f e') = false := by
  intro l
  induction l with
  | nil => intro p h; simp [firstExisting] at h
  | cons e es ih =>
    intro p h
    simp only [List.map_cons, firstExisting] at h
    by_cases he : fileExists fs (f e) = true
    · rw [if_pos he] at h
      refine ⟨[], e, es, rfl, ?_, ?_, by simp⟩
      · exact (Option.some.inj h).symm
      · rw [← Option.some.inj h]; exact he
    · rw [if_neg he] at h
      obtain ⟨pre, e', post, hl, hp, hex, hpre⟩ := ih p h
      refine ⟨e :: pre, e', post, by rw [hl]; rfl, hp, hex, ?_⟩
      intro x hx
      rcases List.mem_cons.mp hx with hx | hx
      · rw [hx]; exact Bool.eq_false_iff.mpr he
      · exact hpre x hx

theorem firstExisting_map_none (fs : FsSnapshot) (f : String → String) :
    ∀ l : List String,
      firstExisting fs (l.map f) = none →
      ∀ e ∈ l, fileExists fs (f e) = false := by
  intro l
  induction l with
  | nil => intro _ e he; simp at he
  | cons a as ih =>
    intro h e he
    simp only [List.map_cons, firstExisting] at h
    by_cases ha : fileExists fs (f a) = true
    · rw [if_pos ha] at h; exact absurd h (by simp)
    · rw [if_neg ha] at h
      rcases List.mem_cons.mp he with he | he
      · rw [he]; exact Bool.eq_false_iff.mpr ha
      · exact ih h e he

/-- C6. Resolution is a pure function of (specifier, requester,
filesystem snapshot, resolution rules) — `resolveSpecifier` — and
follows the deterministic order: the exact path wins when it exists;
an extension candidate is chosen only when the exact path is missing,
and only the first extension (in the configured priority order) whose
candidate exists is taken; the directory index fallback fires only
after every extension candidate failed; the non-bundled fallback fires
only after everything else failed. -/
theorem resolver_order (rules : ResolutionRules) (fs : FsSnapshot)
    (requester spec : String) :
    (fileExists fs (baseTarget requester spec) = true →
      resolveSpecifier rules fs requester spec =
        .exactPath (baseTarget requester spec)) ∧
    (∀ p, resolveSpecifier rules fs requester spec = .extCandidate p →
      fileExists fs (baseTarget requester spec) = false ∧
      ∃ pre e post, rules.extensions = pre ++ e :: post ∧
        p = baseTarget requester spec ++ e ∧
        fileExists fs p = true ∧
        ∀ e' ∈ pre, fileExists fs (baseTarget requester spec ++ e') = false) ∧
    (∀ p, resolveSpecifier rules fs requester spec = .dirIndex p →
      fileExists fs (baseTarget requester spec) = false ∧
      (∀ e ∈ rules.extensions,
        fileExists fs (baseTarget requester spec ++ e) = false) ∧
      ∃ pre e post, rules.extensions = pre ++ e :: post ∧
        p = baseTarget requester spec ++ "/index" ++ e ∧
        fileExists fs p = true ∧
        ∀ e' ∈ pre,
          fileExists fs (baseTarget requester spec ++ "/index" ++ e') = false) ∧
    (∀ s, resolveSpecifier rules fs requester spec = .nonBundled s →
      s = spec ∧
      fileExists fs (baseTarget requester spec) = false ∧
      (∀ e ∈ rules.extensions,
        fileExists fs (baseTarget requester spec ++ e) = false) ∧
      (∀ e ∈ rules.extensions,
        fileExists fs (baseTarget requester spec ++ "/index" ++ e) = false)) := by
  simp only [resolveSpecifier]
  by_cases ht : fileExists fs (baseTarget requester spec) = true
  · rw [if_pos ht]
    refine ⟨fun _ => rfl, ?_, ?_, ?_⟩ <;> intro p h <;> simp at h
  · rw [if_neg ht]
    have ht' : fileExists fs (baseTarget requester spec) = false :=
      Bool.eq_false_iff.mpr ht
    cases h1 : firstExisting fs
        (rules.extensions.map (fun e => baseTarget requester spec ++ e)) with
    | some q =>
      refine ⟨fun hc => absurd hc ht, ?_, ?_, ?_⟩
      · intro p hp
        have hq : q = p := by simpa using hp
        subst hq
        exact ⟨ht', firstExisting_map_some fs _ rules.extensions q h1⟩
      · intro p hp; simp at hp
      · intro s hs; simp at hs
    | none =>
      have hext := firstExisting_map_none fs _ rules.extensions h1
      cases h2 : firstExisting fs
          (rules.extensions.map
            (fun e => baseTarget requester spec ++ "/index" ++ e)) with
      | some q =>
        refine ⟨fun hc => absurd hc ht, ?_, ?_, ?_⟩
        · intro p hp; simp at hp
        · intro p hp
          have hq : q = p := by simpa using hp
          subst hq
          exact ⟨ht', hext, firstExisting_map_some fs _ rules.extensions q h2⟩
        · intro s hs; simp at hs
      | none =>
        have hidx := firstExisting_map_none fs _ rules.extensions h2
        refine ⟨fun hc => absurd hc ht, ?_, ?_, ?_⟩
        · intro p hp; simp at hp
        · intro p hp; simp at hp
        · intro s hs
          have hss : spec = s := by simpa using hs
          exact ⟨hss.symm, ht', hext, hidx⟩

/-- Witness for C6: in a snapshot holding exactly `src/util`, the
specifier `./util` requested from `src/index.ts` resolves to the
exact path. -/
theorem resolver_order_witness :
    resolveSpecifier configResolutionRules ⟨["src/util"]⟩
        "src/index.ts" "./util" =
      .exactPath (baseTarget "src/index.ts" "./util") :=
  (resolver_order configResolutionRules ⟨["src/util"]⟩
    "src/index.ts" "./util").1 (by decide)

theorem assocFind_completionTable (tf : Bytes → Bytes)
    (units : List SourceUnit) :
    ∀ (completion : List Nat) (i : Nat) (u : SourceUnit),
      units.get? i = some u → i ∈ completion →
      assocFind i (completionTable tf units completion) =
        some (tf u.content) := by
  intro completion
  induction completion with
  | nil => intro i u _ hi; simp at hi
  | cons j rest ih =>
    intro i u hu hi
    by_cases hj : j = i
    · subst hj
      have hu' : units[j]? = some u := by
        rw [← List.get?_eq_getElem?]; exact hu
      simp [completionTable, List.filterMap_cons, hu', assocFind]
    · cases hju : units[j]? with
      | none =>
        have hi' : i ∈ rest := by
          rcases List.mem_cons.mp hi with h | h
          · exact absurd h.symm hj
          · exact h
        simpa [completionTable, List.filterMap_cons, hju] using ih i u hu hi'
      | some v =>
        have hi' : i ∈ rest := by
          rcases List.mem_cons.mp hi with h | h
          · exact absurd h.symm hj
          · exact h
        simpa [completionTable, List.filterMap_cons, hju, assocFind, hj]
          using ih i u hu hi'

theorem codeOf_perm (tf : Bytes → Bytes) (units : List SourceUnit)
    {completion : List Nat}
    (hperm : completion.Perm (List.range units.length))
    {i : Nat} {u : SourceUnit} (hu : units.get? i = some u) :
    codeOf tf units completion i = tf u.content := by
  have hlt : i < units.length := by
    rcases List.get?_eq_some.mp hu with ⟨hlt, _⟩
    exact hlt
  have hi : i ∈ completion :=
    hperm.mem_iff.mpr (List.mem_range.mpr hlt)
  simp [codeOf, assocFind_completionTable tf units completion i u hu hi]

theorem chunkBytesFor_perm (tf : Bytes → Bytes) (units : List SourceUnit)
    (k : SourceKind) {c₁ c₂ : List Nat}
    (h₁ : c₁.Perm (List.range units.length))
    (h₂ : c₂.Perm (List.range units.length)) :
    chunkBytesFor tf units c₁ k = chunkBytesFor tf units c₂ k := by
  unfold chunkBytesFor
  congr 1
  apply List.map_congr_left
  intro i hi
  obtain ⟨u, hu⟩ : ∃ u, units.get? i = some u := by
    simp only [indicesOfKind, List.mem_filter] at hi
    have hk := of_decide_eq_true hi.2
    cases hg : units.get? i with
    | none => rw [hg] at hk; simp at hk
    | some u => exact ⟨u, rfl⟩
  rw [codeOf_perm tf units h₁ hu, codeOf_perm tf units h₂ hu]

/-- C2. Reproducibility: two runs of the pipeline over the same input
units and configuration emit byte-identical output — the same HTML
shell name, the same shell contents, and the same asset list (file
names and bytes) — whatever the build revision and whatever order the
unit transforms completed in. -/
theorem build_reproducible (units : List SourceUnit) (tf : Bytes → Bytes)
    (cfg : EmitConfig) (r₁ r₂ : Nat) {c₁ c₂ : List Nat}
    (h₁ : c₁.Perm (List.range units.length))
    (h₂ : c₂.Perm (List.range units.length)) :
    (buildPipeline units tf cfg r₁ c₁).htmlName =
      (buildPipeline units tf cfg r₂ c₂).htmlName ∧
    (buildPipeline units tf cfg r₁ c₁).html =
      (buildPipeline units tf cfg r₂ c₂).html ∧
    (buildPipeline units tf cfg r₁ c₁).assets =
      (buildPipeline units tf cfg r₂ c₂).assets := by
  have hsc : scriptChunkBytes tf units c₁ cfg.mode =
      scriptChunkBytes tf units c₂ cfg.mode := by
    cases cfg.mode <;>
      simp [scriptChunkBytes, chunkBytesFor_perm tf units _ h₁ h₂]
  have hst : styleChunkBytes tf units c₁ = styleChunkBytes tf units c₂ :=
    chunkBytesFor_perm tf units _ h₁ h₂
  have hA : scriptAssetOf tf units c₁ cfg = scriptAssetOf tf units c₂ cfg := by
    simp [scriptAssetOf, hsc]
  have hB : styleAssetOf tf units c₁ cfg = styleAssetOf tf units c₂ cfg := by
    simp [styleAssetOf, hst]
  refine ⟨rfl, ?_, ?_⟩
  · simp only [buildPipeline, styleRefFor, hA, hB]
  · cases hm : cfg.mode <;>
      simp only [buildPipeline, buildAssets, hm, hA, hB]

/-- Witness for C2: the scenario build emits identical assets and
shell under two different completion orders and revisions. -/
theorem build_reproducible_witness :
    (buildPipeline scenarioUnits (fun b => b) scenarioConfig 0
        [2, 0, 1]).assets =
      (buildPipeline scenarioUnits (fun b => b) scenarioConfig 3
        [0, 1, 2]).assets :=
  (build_reproducible scenarioUnits (fun b => b) scenarioConfig 0 3
    (by decide) (by decide)).2.2

theorem cacheGet_cachePut_same (c : Cache) (k : CacheKey)
    (v : CachedResult) : cacheGet (cachePut c k v) k = some v := by
  simp [cachePut, cacheGet]

theorem cacheGet_cachePut_other (c : Cache) {k k' : CacheKey}
    (v : CachedResult) (h : k ≠ k') :
    cacheGet (cachePut c k v) k' = cacheGet c k' := by
  simp [cachePut, cacheGet, h]

theorem cachedOutputs_eq_fresh (tf : Bytes → CachedResult) (optsHash : Nat) :
    ∀ (units : List SourceUnit) (c : Cache),
      CoherentFor tf optsHash units c → HashSeparated units →
      cachedOutputs tf optsHash c units =
        units.map (fun u => tf u.content) := by
  intro units
  induction units with
  | nil => intro c _ _; rfl
  | cons u us ih =>
    intro c hcoh hsep
    have hsep' : HashSeparated us := by
      intro a ha b hb
      exact hsep a (List.mem_cons_of_mem u ha) b (List.mem_cons_of_mem u hb)
    rcases hcoh u (List.mem_cons_self u us) with hmiss | hhit
    · -- cache miss: compute, store, continue with the extended cache
      have hcoh' : CoherentFor tf optsHash us (cachePut c (keyOf u optsHash) (tf u.content)) := by
        intro v hv
        by_cases hk : keyOf u optsHash = keyOf v optsHash
        · right
          rw [hk, cacheGet_cachePut_same]
          have hid : u.id = v.id := congrArg Prod.fst hk
          have hh : hashBytes u.content = hashBytes v.content :=
            congrArg (fun p => p.2.1) hk
          have hcc : u.content = v.content :=
            hsep u (List.mem_cons_self u us) v (List.mem_cons_of_mem u hv)
              hid hh
          rw [hcc]
        · rw [cacheGet_cachePut_other c (tf u.content) hk]
          exact hcoh v (List.mem_cons_of_mem u hv)
      simp only [cachedOutputs, buildWithCache, transformCached, hmiss,
        List.map_cons]
      exact congrArg (fun l => tf u.content :: l) (ih _ hcoh' hsep')
    · -- cache hit: the served result is the fresh transform
      have hcoh' : CoherentFor tf optsHash us c := by
        intro v hv
        exact hcoh v (List.mem_cons_of_mem u hv)
      simp only [cachedOutputs, buildWithCache, transformCached, hhit,
        List.map_cons]
      exact congrArg (fun l => tf u.content :: l) (ih _ hcoh' hsep')

/-- C7. Cache correctness: a build run against any Build Cache that
satisfies the cache validity invariant (every consultable entry is the
transform of the current content it is keyed by) produces exactly the
transform results of a build run after clearing the cache, provided
the content digest separates the build's units.  In particular a build
served entirely from cache hits is observationally identical to a
fresh build. -/
theorem cache_hit_equiv_fresh (tf : Bytes → CachedResult)
    (optsHash : Nat) (units : List SourceUnit) (c : Cache)
    (hcoh : CoherentFor tf optsHash units c)
    (hsep : HashSeparated units) :
    cachedOutputs tf optsHash c units =
      cachedOutputs tf optsHash [] units := by
  rw [cachedOutputs_eq_fresh tf optsHash units c hcoh hsep,
    cachedOutputs_eq_fresh tf optsHash units [] (fun u _ => Or.inl rfl)
      hsep]

/-- Witness for C7: a two-unit build whose first unit is served from a
pre-populated cache entry produces the same outputs as the
cleared-cache build. -/
theorem cache_hit_equiv_fresh_witness :
    cachedOutputs (fun b => ⟨b ++ [0], []⟩) 7
        [(("a", hashBytes [1], 7), ⟨[1, 0], []⟩)]
        [⟨"a", .script, [1]⟩, ⟨"b", .script, [2]⟩] =
      cachedOutputs (fun b => ⟨b ++ [0], []⟩) 7 []
        [⟨"a", .script, [1]⟩, ⟨"b", .script, [2]⟩] :=
  cache_hit_equiv_fresh (fun b => ⟨b ++ [0], []⟩) 7
    [⟨"a", .script, [1]⟩, ⟨"b", .script, [2]⟩]
    [(("a", hashBytes [1], 7), ⟨[1, 0], []⟩)]
    (by unfold CoherentFor; decide) (by unfold HashSeparated; decide)

theorem lowerStr_data_reverse (p : String) :
    (lowerStr p).data.reverse = p.data.reverse.map Char.toLower := by
  simp [lowerStr, List.map_reverse]

theorem sass_suffix_chars {p : String} (hs : sassTest p = true) :
    Option.map Char.toLower (p.data.reverse.get? 0) = some 's' ∧
    Option.map Char.toLower (p.data.reverse.get? 1) = some 's' ∧
    Option.map Char.toLower (p.data.reverse.get? 3) = some 's' := by
  simp only [sassTest, strHasSuffix, Bool.or_eq_true] at hs
  rcases hs with h | h <;>
    exact
      ⟨by rw [← List.get?_map, ← lowerStr_data_reverse]
          exact (startsWith_get? _ _ h 0 (by decide)).trans (by decide),
       by rw [← List.get?_map, ← lowerStr_data_reverse]
          exact (startsWith_get? _ _ h 1 (by decide)).trans (by decide),
       by rw [← List.get?_map, ← lowerStr_data_reverse]
          exact (startsWith_get? _ _ h 3 (by decide)).trans (by decide)⟩

theorem sass_not_ts {p : String} (hs : sassTest p = true) :
    tsTest p = false := by
  obtain ⟨h0, h1, _⟩ := sass_suffix_chars hs
  cases hts : tsTest p
  · rfl
  · exfalso
    simp only [tsTest, strHasSuffix, Bool.or_eq_true] at hts
    rcases hts with h | h
    · have h2 : p.data.reverse.get? 1 = some 't' :=
        (startsWith_get? _ _ h 1 (by decide)).trans (by decide)
      rw [h2] at h1
      exact absurd h1 (by decide)
    · have h2 : p.data.reverse.get? 0 = some 't' :=
        (startsWith_get? _ _ h 0 (by decide)).trans (by decide)
      rw [h2] at h0
      exact absurd h0 (by decide)

theorem sass_not_css {p : String} (hs : sassTest p = true) :
    cssTest p = false := by
  obtain ⟨_, _, h3⟩ := sass_suffix_chars hs
  cases hc : cssTest p
  · rfl
  · exfalso
    simp only [cssTest, strHasSuffix] at hc
    have h2 : (lowerStr p).data.reverse.get? 3 = some '.' :=
      (startsWith_get? _ _ hc 3 (by decide)).trans (by decide)
    rw [lowerStr_data_reverse, List.get?_map] at h2
    rw [h2] at h3
    exact absurd h3 (by decide)

theorem styleDeliveryFor_sass (m : Mode) {p : String}
    (hs : sassTest p = true) :
    styleDeliveryFor (webpackConfigWith m) p =
      some CssDelivery.runtimeInject := by
  have hts := sass_not_ts hs
  have hcs := sass_not_css hs
  simp [styleDeliveryFor, webpackConfigWith, webpackRules, ruleApplies,
    tsRule, cssRule, scssRule, List.find?, hts, hcs, hs,
    appliedLoaderOrder, cssDeliveryOf]

theorem styleDeliveryFor_never_standalone (m : Mode) (p : String) :
    styleDeliveryFor (webpackConfigWith m) p ≠
      some CssDelivery.standaloneFile := by
  intro hcontra
  unfold styleDeliveryFor at hcontra
  cases hf : List.find? (fun r => ruleApplies r p)
      (webpackConfigWith m).rules with
  | none => rw [hf] at hcontra; simp at hcontra
  | some r =>
    rw [hf] at hcontra
    have hm := List.mem_of_find?_eq_some hf
    have hr : r = tsRule ∨ r = cssRule ∨ r = scssRule := by
      simpa [webpackConfigWith, webpackRules] using hm
    rcases hr with h | h | h <;> subst h <;>
      simp [appliedLoaderOrder, tsRule, cssRule, scssRule,
        cssDeliveryOf] at hcontra

/-- C4, counterexample: the claim says the build emits style outputs
as separate CSS files in production mode, but even with the mode set
to production this configuration delivers the stylesheet through
`style-loader` (runtime injection), not as a standalone file. -/
theorem style_delivery_production_cex :
    ¬ (styleDeliveryFor (webpackConfigWith .production)
        "src/styles/global.scss" = some CssDelivery.standaloneFile) := by
  decide

/-- C4, amended: the configuration hard-codes development mode, its
style rules do not depend on the mode, and in every mode styles are
inlined/injected at runtime by `style-loader`; no separate CSS file is
emitted in any mode. -/
theorem style_delivery_mode_amended (m : Mode) (p : String) :
    webpackConfig.mode = Mode.development ∧
    styleDeliveryFor (webpackConfigWith m) p ≠
      some CssDelivery.standaloneFile ∧
    (sassTest p = true →
      styleDeliveryFor (webpackConfigWith m) p =
        some CssDelivery.runtimeInject) :=
  ⟨rfl, styleDeliveryFor_never_standalone m p,
   fun hs => styleDeliveryFor_sass m hs⟩

/-- Witness for C4 (amended): the runtime-injection conclusion at a
concrete stylesheet, with the mode forced to production. -/
theorem style_delivery_mode_amended_witness :
    styleDeliveryFor (webpackConfigWith Mode.production)
        "src/styles/global.scss" = some CssDelivery.runtimeInject :=
  (style_delivery_mode_amended Mode.production
    "src/styles/global.scss").2.2 (by decide)

/-- C8. For every path under `node_modules`, the TypeScript rule of
`webpack.config.js` does not apply, whatever its test pattern says. -/
theorem ts_rule_skips_node_modules (p : String)
    (h : underNodeModules p = true) : ruleApplies tsRule p = false := by
  simp [ruleApplies, tsRule, h]

/-- Witness for C8: a `.ts` file under `node_modules` matches the test
pattern and is still excluded. -/
theorem ts_rule_skips_node_modules_witness :
    underNodeModules "node_modules/lodash/index.ts" = true ∧
    tsTest "node_modules/lodash/index.ts" = true ∧
    ruleApplies tsRule "node_modules/lodash/index.ts" = false :=
  ⟨by decide, by decide, ts_rule_skips_node_modules _ (by decide)⟩

/-- C9. Every file matching the `/\.s[ac]ss$/i` pattern is handled by
the scss rule; its transforms run right-to-left in the fixed order
sass-loader, then css-loader, then style-loader, and the last loader
applied — `style-loader` — injects the compiled style at runtime, so
under this configuration the style is delivered by the script bundle,
not as a standalone CSS asset. -/
theorem scss_loader_chain (p : String) (h : sassTest p = true) :
    ruleApplies scssRule p = true ∧
    appliedLoaderOrder scssRule =
      ["sass-loader", "css-loader", "style-loader"] ∧
    (appliedLoaderOrder scssRule).getLast? = some "style-loader" ∧
    cssDeliveryOf "style-loader" = some CssDelivery.runtimeInject ∧
    styleDeliveryFor webpackConfig p = some CssDelivery.runtimeInject := by
  refine ⟨by simp [ruleApplies, scssRule, h], by decide, by decide, rfl, ?_⟩
  exact styleDeliveryFor_sass Mode.development h

/-- Witness for C9: the chain at the repository's stylesheet. -/
theorem scss_loader_chain_witness :
    ruleApplies scssRule "src/styles/global.scss" = true ∧
    styleDeliveryFor webpackConfig "src/styles/global.scss" =
      some CssDelivery.runtimeInject :=
  ⟨(scss_loader_chain "src/styles/global.scss" (by decide)).1,
   (scss_loader_chain "src/styles/global.scss" (by decide)).2.2.2.2⟩

/-- C10. There is a resolvable source file with extension `.tsx` — the
resolver accepts `.tsx` as an extension candidate since it heads the
configured priority list — to which no `module.rules` entry applies:
the script rule's pattern only matches names ending in `.ts` or `.t`,
and the style rules do not match `.tsx` either. -/
theorem tsx_gap_exists :
    ∃ p : String, strHasSuffix p ".tsx" = true ∧
      ".tsx" ∈ webpackConfig.resolveExtensions ∧
      resolveSpecifier configResolutionRules ⟨[p]⟩ "src/index.ts" "./App" =
        .extCandidate p ∧
      webpackRules.all (fun r => !(ruleApplies r p)) = true :=
  ⟨"src/App.tsx", by decide, by decide, by decide, by decide⟩

/-- C3. Every asset the pipeline writes is a hashed chunk whose file
name has the form `<outputDir>/<logical-name>.<hash8>.<ext>`, where
the eight-character hash is the content hash of that asset's own final
bytes. -/
theorem hashed_chunk_names (units : List SourceUnit) (tf : Bytes → Bytes)
    (cfg : EmitConfig) (rev : Nat) (comp : List Nat) :
    ∀ a ∈ (buildPipeline units tf cfg rev comp).assets,
      ∃ logical ext,
        a.fileName =
          cfg.outputDir ++ "/" ++ logical ++ "." ++ hash8 a.bytes ++ "." ++ ext ∧
        (hash8 a.bytes).length = 8 := by
  intro a ha
  rcases cfg with ⟨m, dir, tpl⟩
  cases m with
  | development =>
    simp only [buildPipeline, buildAssets] at ha
    have hae : a = scriptAssetOf tf units comp ⟨.development, dir, tpl⟩ := by
      simpa using ha
    subst hae
    exact ⟨"app", "js", rfl, hash8_length _⟩
  | production =>
    simp only [buildPipeline, buildAssets] at ha
    have hae : a = scriptAssetOf tf units comp ⟨.production, dir, tpl⟩ ∨
        a = styleAssetOf tf units comp ⟨.production, dir, tpl⟩ := by
      simpa using ha
    rcases hae with h | h <;> subst h
    · exact ⟨"app", "js", rfl, hash8_length _⟩
    · exact ⟨"styles", "css", rfl, hash8_length _⟩

/-- Witness for C3: the scenario build's script chunk has the hashed
name form. -/
theorem hashed_chunk_names_witness :
    ∃ logical ext,
      (scriptAssetOf (fun b => b) scenarioUnits [0, 1, 2]
          scenarioConfig).fileName =
        scenarioConfig.outputDir ++ "/" ++ logical ++ "." ++
          hash8 (scriptAssetOf (fun b => b) scenarioUnits [0, 1, 2]
            scenarioConfig).bytes ++ "." ++ ext ∧
      (hash8 (scriptAssetOf (fun b => b) scenarioUnits [0, 1, 2]
        scenarioConfig).bytes).length = 8 :=
  hashed_chunk_names scenarioUnits (fun b => b) scenarioConfig 0 [0, 1, 2]
    _ (by decide)

/-- C5. The emitter hashes each chunk over its final bytes — the
script reference injected into the shell is exactly
`chunkFileName outputDir "app" <final script bytes> "js"` — and the
rendered HTML shell contains that hashed reference at the fixed script
placeholder marker; in production mode the hashed style reference is
likewise injected at the fixed style placeholder marker. -/
theorem shell_injects_hashed_refs (units : List SourceUnit)
    (tf : Bytes → Bytes) (cfg : EmitConfig) (rev : Nat) (comp : List Nat)
    (hscript : Segment.scriptSlot ∈ cfg.shellTemplate) :
    ((scriptAssetOf tf units comp cfg).fileName =
        chunkFileName cfg.outputDir "app"
          (scriptAssetOf tf units comp cfg).bytes "js" ∧
      listHasSeg (scriptAssetOf tf units comp cfg).fileName.data
        (buildPipeline units tf cfg rev comp).html.data = true) ∧
    (cfg.mode = Mode.production → Segment.styleSlot ∈ cfg.shellTemplate →
      (styleAssetOf tf units comp cfg).fileName =
        chunkFileName cfg.outputDir "styles"
          (styleAssetOf tf units comp cfg).bytes "css" ∧
      listHasSeg (styleAssetOf tf units comp cfg).fileName.data
        (buildPipeline units tf cfg rev comp).html.data = true) := by
  constructor
  · refine ⟨rfl, ?_⟩
    show listHasSeg (scriptAssetOf tf units comp cfg).fileName.data
      (renderShellData (scriptAssetOf tf units comp cfg).fileName
        (styleRefFor tf units comp cfg) cfg.shellTemplate) = true
    exact renderShell_hasSeg_script _ _ _ hscript
  · intro hm hstyle
    refine ⟨rfl, ?_⟩
    have hsr : styleRefFor tf units comp cfg =
        (styleAssetOf tf units comp cfg).fileName := by
      simp [styleRefFor, hm]
    show listHasSeg (styleAssetOf tf units comp cfg).fileName.data
      (renderShellData (scriptAssetOf tf units comp cfg).fileName
        (styleRefFor tf units comp cfg) cfg.shellTemplate) = true
    rw [hsr]
    exact renderShell_hasSeg_style _ _ _ hstyle

/-- Witness for C5: in the scenario build the shell contains the
hashed script-chunk reference. -/
theorem shell_injects_hashed_refs_witness :
    listHasSeg (scriptAssetOf (fun b => b) scenarioUnits [0, 1, 2]
        scenarioConfig).fileName.data
      (buildPipeline scenarioUnits (fun b => b) scenarioConfig 0
        [0, 1, 2]).html.data = true :=
  ((shell_injects_hashed_refs scenarioUnits (fun b => b) scenarioConfig 0
    [0, 1, 2] (by decide)).1).2

/-- C1. For the configured entry point (`./src/index.ts` in
`webpack.config.js`), the modelled build produces one HTML shell and
exactly one script chunk; the shell references that chunk; in the
configured development mode the style is inlined into the script chunk
rather than emitted separately; and executing the entry chunk invokes
`foo` exactly once, with the argument `hello world`. -/
theorem entry_scenario_build_and_run :
    webpackConfig.entry = "./src/index.ts" ∧
    scenarioBuild.htmlName = "index.html" ∧
    scenarioBuild.assets.length = 1 ∧
    (∃ a, scenarioBuild.assets = [a] ∧
      listHasSeg a.fileName.data scenarioBuild.html.data = true ∧
      listHasSeg [0x62, 0x6f, 0x64, 0x79] a.bytes = true) ∧
    runEntryChunk.filter isFooCall = [Event.fooCall "hello world"] := by
  refine ⟨rfl, rfl, by decide,
    ⟨scriptAssetOf (fun b => b) scenarioUnits [0, 1, 2] scenarioConfig,
      by decide, by decide, by decide⟩, by decide⟩

end QuickBrowser
